import Mathlib

/-!
# TradeBuddy: verification of the sync / retrieval / conversation core

Shallow embedding of the core services of the TradeBuddy repository
(`app/services/sync.py`, `upserts.py`, `retrieval.py`, `vector.py`,
`conversation.py`) together with proofs settling the frozen claims about
them.  External collaborators (the broker client, the embedding service,
Atlas text/vector search) are modelled as oracle parameters whose outcome
is quantified over; the MongoDB write primitives used by the code
(`update_one` with `$set` and `upsert=True`, `update_many`,
`count_documents`, `find().sort().skip().limit()`) are embedded
explicitly.
-/

namespace TradeBuddy

/-! ## Sync orchestrator (`app/services/sync.py`, `run_incremental_sync`)

The broker client (`kite_client.py`, `IKiteClient`) is a record of
fallible fetches.  Only the fields that `run_incremental_sync` reads from
an order are carried on `RawOrder`; `profile` is the cheap
token-validation call exposed by `RealKiteClient.profile`. -/

/-- An order row as returned by the broker's `get_orders`, restricted to
the fields `run_incremental_sync` reads when deriving the trade history
(`status`, `filled_quantity`, `order_id`, `tradingsymbol`,
`transaction_type`, `average_price`, `order_timestamp`). -/
structure RawOrder where
  order_id : String
  tradingsymbol : String
  transaction_type : String
  status : String
  filled_quantity : Nat
  average_price : Int
  order_timestamp : Nat
  deriving DecidableEq, Repr

/-- The broker client interface (`IKiteClient`): each fetch either
returns data or raises an error message.  `profile` is the cheap
credential-validation call (`RealKiteClient.profile`). -/
structure KiteClient where
  profile : Except String Unit
  getFunds : Except String Unit
  getHoldings : Except String Unit
  getPositions : Except String Unit
  getOrders : Except String (List RawOrder)
  getTrades : Except String Unit
  getInstruments : Except String Unit

/-- One entry of the `updated`/`changed` list built by
`run_incremental_sync`: a `doc` tag, an optional `error` string, and an
optional `count`. -/
structure SyncEntry where
  doc : String
  error : Option String := none
  count : Option Nat := none
  deriving DecidableEq, Repr

/-- A trade row derived from a completed order (the dict literal built at
`sync.py` lines 115-123). -/
structure TradeRow where
  tradeId : String
  orderId : String
  symbol : String
  side : String
  qty : Nat
  price : Int
  ts : Nat
  deriving DecidableEq, Repr

/-- The trade history `run_incremental_sync` derives from the orders
fetch: orders with `status == 'COMPLETE'` and `filled_quantity > 0`
become trade rows (`sync.py` lines 111-123). -/
def buildTradeHistory (orders : List RawOrder) : List TradeRow :=
  (orders.filter (fun o => o.status = "COMPLETE" && decide (0 < o.filled_quantity))).map
    (fun o => ⟨o.order_id, o.order_id, o.tradingsymbol, o.transaction_type,
               o.filled_quantity, o.average_price, o.order_timestamp⟩)

/-- The per-resource section of `run_incremental_sync` (`sync.py` lines
77-134): five `try` blocks appending success or error entries.  The
trades block re-fetches the orders (`kite.get_orders()` at line 108) and,
on success, appends both a trades entry and a second orders entry. -/
def syncCore (k : KiteClient) : List SyncEntry :=
  (match k.getFunds with
   | .ok _ => [{ doc := "funds" }]
   | .error e => [{ doc := "funds", error := some e }]) ++
  (match k.getHoldings with
   | .ok _ => [{ doc := "holdings" }]
   | .error e => [{ doc := "holdings", error := some e }]) ++
  (match k.getPositions with
   | .ok _ => [{ doc := "positions" }]
   | .error e => [{ doc := "positions", error := some e }]) ++
  (match k.getOrders with
   | .ok _ => [{ doc := "orders" }]
   | .error e => [{ doc := "orders", error := some e }]) ++
  (match k.getOrders with
   | .ok os =>
       let th := buildTradeHistory os
       [{ doc := "trades", count := some th.length },
        { doc := "orders", count := some os.length }]
   | .error e => [{ doc := "orders", error := some e }])

/-- The user's Zerodha connection document as read by
`run_incremental_sync` (`connections` collection). -/
structure Connection where
  enabled : Bool
  accessToken : Option String
  apiKey : Option String
  tokenExpiredAt : Option Nat := none
  deriving DecidableEq, Repr

/-- The slice of database state `run_incremental_sync` consults about the
user: the (unique) Zerodha connection, if any, and whether the shared
instruments master is fresh (`_instruments_recent`). -/
structure SyncDbState where
  conn : Option Connection
  instrumentsRecent : Bool
  deriving DecidableEq, Repr

/-- The dictionary returned by `run_incremental_sync`: the optional
`note`, the `updated` entry list, and the `embeddings` marker. -/
structure SyncResult where
  note : Option String := none
  updated : List SyncEntry
  embeddings : Option String := none
  deriving DecidableEq, Repr

/-- The instruments block of `run_incremental_sync` (`sync.py` lines
66-75): when forced and the cached master is stale, fetch it; on
success, upsert it and call `_mark_instruments_updated` (line 71), which
refreshes the `meta` timestamp so `_instruments_recent` becomes true; on
failure, record an instruments error entry without marking.  Returns the
updated state slice and the entries appended. -/
def instrumentsPhase (st : SyncDbState) (k : KiteClient)
    (forceInstruments : Bool) : SyncDbState × List SyncEntry :=
  if forceInstruments then
    if st.instrumentsRecent then (st, [])
    else match k.getInstruments with
      | .ok _ => ({ st with instrumentsRecent := true },
                  [{ doc := "instruments" }])
      | .error e => (st, [{ doc := "instruments", error := some e }])
  else (st, [])

/-- `run_incremental_sync` (`sync.py` lines 43-145).  Returns the updated
database slice together with the result dictionary.  The function reads
the connection, builds the client, optionally refreshes the instrument
master (marking the shared freshness timestamp on success), then runs
the five resource blocks; it performs no write to the `connections`
collection. -/
def runIncrementalSync (st : SyncDbState) (k : KiteClient)
    (forceInstruments : Bool) (skipEmbeddings : Bool) :
    SyncDbState × SyncResult :=
  match st.conn with
  | none => (st, { note := some "no-connection", updated := [] })
  | some c =>
    if c.enabled then
      ((instrumentsPhase st k forceInstruments).1,
       { updated := (instrumentsPhase st k forceInstruments).2 ++ syncCore k,
         embeddings := some (if skipEmbeddings then "skipped"
                             else "handled elsewhere") })
    else (st, { note := some "no-connection", updated := [] })

/-- The entry list reports success for resource `d`: some entry has
`doc = d` and no error. -/
def hasSuccessEntry (es : List SyncEntry) (d : String) : Bool :=
  es.any (fun e => e.doc = d && e.error = none)

/-- The entry list reports an error for resource `d`. -/
def hasErrorEntry (es : List SyncEntry) (d : String) : Bool :=
  es.any (fun e => e.doc = d && e.error ≠ none)

/-- The number of error entries in the list. -/
def errorEntryCount (es : List SyncEntry) : Nat :=
  (es.filter (fun e => e.error ≠ none)).length

/-- The five resource tags of claim C1. -/
def resourceTags : List String := ["funds", "holdings", "positions", "orders", "trades"]

/-- A client whose every fetch succeeds except one designated failure
point; used to build concrete sync runs. -/
def okClient : KiteClient :=
  { profile := .ok ()
    getFunds := .ok ()
    getHoldings := .ok ()
    getPositions := .ok ()
    getOrders := .ok []
    getTrades := .ok ()
    getInstruments := .ok () }

/-- A client identical to `okClient` except that the orders fetch raises. -/
def ordersFailClient : KiteClient :=
  { okClient with getOrders := .error "NetworkException" }

/-- A client whose every data fetch raises the broker's token exception,
as happens when the access token has expired. -/
def authFailClient : KiteClient :=
  { profile := .error "TokenException"
    getFunds := .error "TokenException"
    getHoldings := .error "TokenException"
    getPositions := .error "TokenException"
    getOrders := .error "TokenException"
    getTrades := .error "TokenException"
    getInstruments := .error "TokenException" }

/-- An enabled connection with a (stale) access token. -/
def enabledConn : Connection :=
  { enabled := true, accessToken := some "tok", apiKey := some "key" }

/-- Whether the broker fetch associated with a resource tag raises. -/
def failsOn {α : Type} : Except String α → Bool
  | .ok _ => false
  | .error _ => true

/-- Whether the client's fetch for the named resource raises (the trades
resource maps to the client's `get_trades`, funds to `get_funds`, and so
on). -/
def fetchFails (k : KiteClient) : String → Bool
  | "funds" => failsOn k.getFunds
  | "holdings" => failsOn k.getHoldings
  | "positions" => failsOn k.getPositions
  | "orders" => failsOn k.getOrders
  | "trades" => failsOn k.getTrades
  | _ => false

/-! ### Claims C1 and C2 -/

/-- **C1, counterexample.**  The claim states that whenever exactly one
resource's fetch fails, every other resource gets a success entry and
exactly that resource gets the error entry.  With an enabled connection
and a client whose orders fetch (and only it) raises, the sync result
contains *no* success entry for the trades resource — trades are derived
from the second orders fetch — and contains two error entries, both
attributed to `orders`. -/
theorem claim_C1_counterexample :
    (resourceTags.filter (fetchFails ordersFailClient) = ["orders"]) ∧
    (hasSuccessEntry
      ((runIncrementalSync ⟨some enabledConn, false⟩ ordersFailClient false true).2.updated)
      "trades" = false) ∧
    (errorEntryCount
      ((runIncrementalSync ⟨some enabledConn, false⟩ ordersFailClient false true).2.updated)
      = 2) := by
  decide

/-- **C1, amended.**  For a sync with an enabled connection whose orders
fetch succeeds and in which exactly one of the funds, holdings or
positions fetches fails, every other resource (trades included) gets a
success entry, the failing resource gets an error entry, and there is
exactly one error entry overall.  (When the orders fetch fails the claim
does not hold: both the orders block and the trades block record the
failure under `orders` and the trades resource gets no entry, and the
client's own trades fetch is never invoked by the sync.) -/
theorem claim_C1_amended (st : SyncDbState) (c : Connection) (k : KiteClient)
    (skip : Bool) (f : String)
    (hc : st.conn = some c) (he : c.enabled = true)
    (hord : failsOn k.getOrders = false)
    (hf : (["funds", "holdings", "positions"].filter (fetchFails k)) = [f]) :
    (hasErrorEntry ((runIncrementalSync st k false skip).2.updated) f = true) ∧
    (errorEntryCount ((runIncrementalSync st k false skip).2.updated) = 1) ∧
    (∀ d ∈ resourceTags, d ≠ f →
      hasSuccessEntry ((runIncrementalSync st k false skip).2.updated) d = true) := by
  cases hord' : k.getOrders with
  | error e => rw [hord'] at hord; simp [failsOn] at hord
  | ok os =>
    cases hfu : k.getFunds <;> cases hho : k.getHoldings <;> cases hpo : k.getPositions <;>
      simp [fetchFails, failsOn, hfu, hho, hpo] at hf <;>
      subst hf <;>
      simp [runIncrementalSync, syncCore, hc, he, hfu, hho, hpo, hord',
            hasErrorEntry, hasSuccessEntry, errorEntryCount, resourceTags,
            List.filter, List.any]

/-- **C1, witness** for the amended theorem: a concrete run in which the
holdings fetch alone fails. -/
theorem claim_C1_amended_witness :
    (hasErrorEntry
      ((runIncrementalSync ⟨some enabledConn, false⟩
        { okClient with getHoldings := .error "boom" } false true).2.updated)
      "holdings" = true) ∧
    (errorEntryCount
      ((runIncrementalSync ⟨some enabledConn, false⟩
        { okClient with getHoldings := .error "boom" } false true).2.updated) = 1) ∧
    (∀ d ∈ resourceTags, d ≠ "holdings" →
      hasSuccessEntry
        ((runIncrementalSync ⟨some enabledConn, false⟩
          { okClient with getHoldings := .error "boom" } false true).2.updated)
        d = true) :=
  claim_C1_amended ⟨some enabledConn, false⟩ enabledConn
    { okClient with getHoldings := .error "boom" } true "holdings"
    rfl rfl (by decide) (by decide)

/-- **C2, counterexample.**  The claim states that the sync orchestrator
validates the credential before any fetch, and on rejection disables the
connection and returns a single auth-expired result.  With an enabled
connection and an expired token (every broker call raises
`TokenException`), `run_incremental_sync` instead returns five
per-resource error entries, sets no note, and leaves the connection
enabled and the database slice unchanged. -/
theorem claim_C2_counterexample :
    ((runIncrementalSync ⟨some enabledConn, false⟩ authFailClient false true).1
      = ⟨some enabledConn, false⟩) ∧
    (enabledConn.enabled = true) ∧
    (errorEntryCount
      ((runIncrementalSync ⟨some enabledConn, false⟩ authFailClient false true).2.updated)
      = 5) ∧
    ((runIncrementalSync ⟨some enabledConn, false⟩ authFailClient false true).2.note
      = none) := by
  decide

/-- **C2, amended.**  `run_incremental_sync` performs no credential
validation and never disables a connection: its output is independent of
the client's `profile` call, the connection component of the state is
returned unchanged in every branch (the only state write is the
instruments-freshness mark of a forced successful refresh), and its note
is either absent or the `no-connection` marker — there is no
auth-expired result.  (Credential validation with `kite.profile()` and
disabling of the connection happen only in the manual WhatsApp refresh
handler and in the unused helper `validate_zerodha_token`.) -/
theorem claim_C2_amended (st : SyncDbState) (k : KiteClient)
    (p : Except String Unit) (fi se : Bool) :
    ((runIncrementalSync st k fi se).1.conn = st.conn) ∧
    (runIncrementalSync st { k with profile := p } fi se
      = runIncrementalSync st k fi se) ∧
    ((runIncrementalSync st k fi se).2.note = none ∨
      (runIncrementalSync st k fi se).2.note = some "no-connection") := by
  have hinstr : (instrumentsPhase st k fi).1.conn = st.conn := by
    rcases st with ⟨conn, ir⟩
    cases fi <;> cases ir <;> cases hgi : k.getInstruments <;>
      simp [instrumentsPhase, hgi]
  refine ⟨?_, rfl, ?_⟩ <;>
  · rcases hst : st.conn with _ | c
    case _ => simp [runIncrementalSync, hst]
    case _ =>
      by_cases hce : c.enabled <;>
        simp [runIncrementalSync, hst, hce, hinstr]

/-! ## Document store (`app/services/upserts.py`, `vector.py`)

MongoDB documents are association lists of scalar values.  `toMongoSafe`
embeds `_to_mongo_safe` on the value domain the services write: strings,
booleans, numbers (Python int/float as rationals), `Decimal`,
`ObjectId`, naive and timezone-aware datetimes, date-only values,
embedding vectors and flat metadata dictionaries.  `updateOneSet` embeds
`update_one(filter, {"$set": doc}, upsert=True)`: MongoDB's `$set`
updates the listed fields of the first matching document and leaves its
other fields in place; on no match it inserts a document built from the
filter's equality fields with the update applied. -/

/-- A metadata value (`meta` sub-document entries are strings or
numbers). -/
inductive MetaVal where
  | ms (s : String)
  | mn (q : ℚ)
  deriving DecidableEq, Repr

/-- A scalar BSON value as written by the services.  `vDt` is a naive
UTC datetime (seconds), `vDtTz` a timezone-aware one (UTC instant plus
offset), `vDate` a date-only value (days), `vDec` an arbitrary-precision
decimal, `vNum` a Python int/float, `vVec` an embedding vector, and
`vMetaDoc` a flat metadata dictionary. -/
inductive Val where
  | vNull
  | vBool (b : Bool)
  | vNum (q : ℚ)
  | vDec (q : ℚ)
  | vStr (s : String)
  | vId (n : Nat)
  | vDt (t : Nat)
  | vDtTz (t : Nat) (off : Int)
  | vDate (d : Nat)
  | vVec (l : List ℚ)
  | vMetaDoc (m : List (String × MetaVal))
  deriving DecidableEq, Repr

/-- A document: an association list of fields, in insertion order (as a
Python dict / BSON document). -/
abbrev Doc := List (String × Val)

/-- `_to_mongo_safe` (`upserts.py` lines 18-56) on one value: a
timezone-aware datetime becomes the same instant naive UTC, a date
becomes its UTC midnight, a `Decimal` becomes a float; everything else
passes through. -/
def toMongoSafe : Val → Val
  | .vDtTz t _ => .vDt t
  | .vDate d => .vDt (86400 * d)
  | .vDec q => .vNum q
  | v => v

/-- `_normalize_doc` (`upserts.py` lines 59-61): shallow copy, then
sanitize every field value. -/
def normalizeDoc (d : Doc) : Doc := d.map (fun kv => (kv.1, toMongoSafe kv.2))

/-- Field lookup in a document (first occurrence). -/
def getVal (d : Doc) (k : String) : Option Val :=
  (d.find? (fun kv => kv.1 = k)).map (·.2)

/-- Setting one field of a document: overwrite in place if present,
append otherwise (CPython dict assignment / one `$set` field). -/
def setField : Doc → String → Val → Doc
  | [], k, v => [(k, v)]
  | kv :: rest, k, v =>
    if kv.1 = k then (k, v) :: rest else kv :: setField rest k v

/-- Applying a `$set` document: set each listed field, in order, on the
target document.  Fields of the target absent from `upd` are untouched. -/
def applySet (upd : Doc) (d : Doc) : Doc :=
  upd.foldl (fun acc kv => setField acc kv.1 kv.2) d

/-- MongoDB equality filter: every filter field must be equal in the
document; a `null` filter value also matches a missing field. -/
def matchesFilter (flt : Doc) (d : Doc) : Bool :=
  flt.all (fun kv => match kv.2 with
    | .vNull => getVal d kv.1 = none || getVal d kv.1 = some .vNull
    | v => getVal d kv.1 = some v)

/-- `update_one(filter, {"$set": upd}, upsert=True)` on a collection:
apply `$set` to the first matching document; if none matches, insert a
new document built from the filter's equality fields with the update
applied. -/
def updateOneSet (col : List Doc) (flt upd : Doc) : List Doc :=
  match col with
  | [] => [applySet upd flt]
  | d :: ds =>
    if matchesFilter flt d then applySet upd d :: ds
    else d :: updateOneSet ds flt upd

/-- The normalized, `userId`-stamped document an upsert helper stores
(`d2` in `upserts.py`). -/
def stampDoc (user : Nat) (d : Doc) : Doc :=
  setField (normalizeDoc d) "userId" (.vId user)

/-- The holdings upsert key `{userId, tradingsymbol}` built with
`d2.get("tradingsymbol")` (`upserts.py` line 100). -/
def holdKey (user : Nat) (d : Doc) : Doc :=
  [("userId", .vId user),
   ("tradingsymbol", (getVal (stampDoc user d) "tradingsymbol").getD .vNull)]

/-- The positions upsert key `{userId, tradingsymbol, bucket}`
(`upserts.py` lines 113-117). -/
def posKey (user : Nat) (d : Doc) : Doc :=
  [("userId", .vId user),
   ("tradingsymbol", (getVal (stampDoc user d) "tradingsymbol").getD .vNull),
   ("bucket", (getVal (stampDoc user d) "bucket").getD .vNull)]

/-- `upsert_holdings` (`upserts.py` lines 95-101): normalize each doc,
stamp `userId`, and `$set`-upsert at key `(userId, tradingsymbol)`. -/
def upsertHoldings (col : List Doc) (user : Nat) (docs : List Doc) : List Doc :=
  docs.foldl (fun c d => updateOneSet c (holdKey user d) (stampDoc user d)) col

/-- `upsert_positions` (`upserts.py` lines 104-118): normalize each doc,
stamp `userId`, and `$set`-upsert at key `(userId, tradingsymbol,
bucket)`. -/
def upsertPositions (col : List Doc) (user : Nat) (docs : List Doc) : List Doc :=
  docs.foldl (fun c d => updateOneSet c (posKey user d) (stampDoc user d)) col

/-- The embeddings-collection key of `upsert_embedding` (`vector.py`
lines 82-86). -/
def embKey (u : Nat) (kind docId : String) : Doc :=
  [("userId", .vId u), ("kind", .vStr kind), ("docId", .vStr docId)]

/-- The full embeddings document built by `upsert_embedding`
(`vector.py` lines 72-81): every stored field is listed, so `$set`
overwrites them all. -/
def embDoc (u : Nat) (kind docId : String) (vector : List ℚ)
    (chunk : String) (metadata : Option (List (String × MetaVal)))
    (phone : Option String) (now : Nat) : Doc :=
  [("userId", .vId u),
   ("phone", (phone.map .vStr).getD .vNull),
   ("kind", .vStr kind),
   ("docId", .vStr docId),
   ("vector", .vVec vector),
   ("chunk", .vStr chunk),
   ("meta", .vMetaDoc (metadata.getD [])),
   ("updatedAt", .vDt now)]

/-- `upsert_embedding` (`vector.py` lines 60-91): build the full
document and `$set`-upsert it at key `(userId, kind, docId)`. -/
def upsertEmbedding (col : List Doc) (u : Nat) (kind docId : String)
    (vector : List ℚ) (chunk : String)
    (metadata : Option (List (String × MetaVal)))
    (phone : Option String) (now : Nat) : List Doc :=
  updateOneSet col (embKey u kind docId)
    (embDoc u kind docId vector chunk metadata phone now)

/-- The number of stored documents matching a filter. -/
def countKey (col : List Doc) (flt : Doc) : Nat :=
  col.countP (fun d => matchesFilter flt d)

/-- One upsert's payload: the arguments of `upsert_embedding` other than
the key. -/
structure EmbedArgs where
  vector : List ℚ
  chunk : String
  metadata : Option (List (String × MetaVal)) := none
  phone : Option String := none
  now : Nat := 0

/-- A sequence of `upsert_embedding` calls at one key. -/
def upsertEmbeddingSeq (col : List Doc) (u : Nat) (kind docId : String)
    (as : List EmbedArgs) : List Doc :=
  as.foldl (fun c a =>
    upsertEmbedding c u kind docId a.vector a.chunk a.metadata a.phone a.now) col

/-! ### Lemmas about the `$set` upsert -/

theorem getVal_nil (k : String) : getVal ([] : Doc) k = none := rfl

theorem getVal_cons (kv : String × Val) (rest : Doc) (k : String) :
    getVal (kv :: rest) k = if kv.1 = k then some kv.2 else getVal rest k := by
  by_cases h : kv.1 = k <;>
    simp [getVal, List.find?_cons_of_pos, List.find?_cons_of_neg, h]

theorem getVal_setField_self (d : Doc) (k : String) (v : Val) :
    getVal (setField d k v) k = some v := by
  induction d with
  | nil => simp [setField, getVal_cons, getVal_nil]
  | cons kv rest ih =>
    by_cases h : kv.1 = k <;> simp [setField, h, getVal_cons, ih]

theorem getVal_setField_ne (d : Doc) (k k' : String) (v : Val) (h : k' ≠ k) :
    getVal (setField d k v) k' = getVal d k' := by
  induction d with
  | nil => simp [setField, getVal_cons, getVal_nil, Ne.symm h]
  | cons kv rest ih =>
    by_cases hk : kv.1 = k
    · simp [setField, hk, getVal_cons, Ne.symm h]
    · simp [setField, hk, getVal_cons, ih]

theorem getVal_eq_none_of_not_mem (d : Doc) (k : String)
    (h : k ∉ d.map Prod.fst) : getVal d k = none := by
  induction d with
  | nil => rfl
  | cons kv rest ih =>
    have h1 : kv.1 ≠ k := by
      intro hh
      exact h (by simp [hh])
    have h2 : k ∉ rest.map Prod.fst := by
      intro hh
      exact h (by simp [hh])
    simp [getVal_cons, h1, ih h2]

theorem getVal_applySet_of_none (upd : Doc) (d : Doc) (k : String)
    (h : getVal upd k = none) :
    getVal (applySet upd d) k = getVal d k := by
  induction upd generalizing d with
  | nil => rfl
  | cons kv rest ih =>
    rw [getVal_cons] at h
    by_cases hk : kv.1 = k
    · simp [hk] at h
    · rw [if_neg hk] at h
      have hstep : applySet (kv :: rest) d = applySet rest (setField d kv.1 kv.2) := rfl
      rw [hstep, ih _ h, getVal_setField_ne _ _ _ _ (fun hh => hk hh.symm)]

theorem getVal_applySet_of_some (upd : Doc) (d : Doc) (k : String) (v : Val)
    (hnd : (upd.map Prod.fst).Nodup) (h : getVal upd k = some v) :
    getVal (applySet upd d) k = some v := by
  induction upd generalizing d with
  | nil => simp [getVal_nil] at h
  | cons kv rest ih =>
    have hstep : applySet (kv :: rest) d = applySet rest (setField d kv.1 kv.2) := rfl
    rw [getVal_cons] at h
    simp at hnd
    by_cases hk : kv.1 = k
    · rw [if_pos hk] at h
      have hnone : getVal rest k = none := by
        refine getVal_eq_none_of_not_mem _ _ ?_
        intro hmem
        rw [List.mem_map] at hmem
        rcases hmem with ⟨ab, hab, hab1⟩
        refine hnd.1 ab.2 ?_
        rw [hk, ← hab1]
        simpa using hab
      rw [hstep, getVal_applySet_of_none _ _ _ hnone, ← hk, getVal_setField_self]
      exact h
    · rw [if_neg hk] at h
      rw [hstep]
      exact ih _ hnd.2 h

theorem updateOneSet_no_match (col : List Doc) (flt upd : Doc)
    (h : ∀ x ∈ col, matchesFilter flt x = false) :
    updateOneSet col flt upd = col ++ [applySet upd flt] := by
  induction col with
  | nil => rfl
  | cons c rest ih =>
    have hc : matchesFilter flt c = false := h c (by simp)
    simp [updateOneSet, hc, ih (fun x hx => h x (by simp [hx]))]

theorem updateOneSet_split (pre post : List Doc) (m : Doc) (flt upd : Doc)
    (hpre : ∀ p ∈ pre, matchesFilter flt p = false)
    (hm : matchesFilter flt m = true) :
    updateOneSet (pre ++ m :: post) flt upd = pre ++ applySet upd m :: post := by
  induction pre with
  | nil => simp [updateOneSet, hm]
  | cons p rest ih =>
    have hp : matchesFilter flt p = false := hpre p (by simp)
    simp [updateOneSet, hp, ih (fun x hx => hpre x (by simp [hx]))]

/-! ### Claim C3 -/

/-- A stored holding carrying a field (`isin`) that the next sync's
normalized document no longer contains. -/
def oldHolding : Doc :=
  [("userId", .vId 1), ("tradingsymbol", .vStr "TCS"),
   ("qty", .vNum 5), ("isin", .vStr "INE467B01029")]

/-- The next sync's holding document for the same key, without the
`isin` field. -/
def newHolding : Doc :=
  [("tradingsymbol", .vStr "TCS"), ("qty", .vNum 10)]

/-- A stored position carrying a field (`m2m`) that the next sync's
normalized document no longer contains. -/
def oldPosition : Doc :=
  [("userId", .vId 1), ("tradingsymbol", .vStr "TCS"),
   ("bucket", .vStr "day"), ("qty", .vNum 5), ("m2m", .vNum 12)]

/-- The next sync's position document for the same `(user,
tradingsymbol, bucket)` key, without the `m2m` field. -/
def newPosition : Doc :=
  [("tradingsymbol", .vStr "TCS"), ("bucket", .vStr "day"),
   ("qty", .vNum 7)]

/-- **C3, counterexample.**  The claim states that a successful resync
replaces the whole matched document, removing every stored field absent
from the new normalized document.  Resyncing the `(user 1, TCS)` holding
with a document that lacks the stored `isin` field leaves `isin` (and
its stale value) in place: `update_one` with `$set` merges fields, it
does not replace the document. -/
theorem claim_C3_counterexample :
    (getVal (stampDoc 1 newHolding) "isin" = none) ∧
    upsertHoldings [oldHolding] 1 [newHolding] =
      [[("userId", .vId 1), ("tradingsymbol", .vStr "TCS"),
        ("qty", .vNum 10), ("isin", .vStr "INE467B01029")]] ∧
    ((upsertHoldings [oldHolding] 1 [newHolding]).head?.map
      (fun d => getVal d "isin")) = some (some (.vStr "INE467B01029")) ∧
    (getVal (stampDoc 1 newPosition) "m2m" = none) ∧
    ((upsertPositions [oldPosition] 1 [newPosition]).head?.map
      (fun d => getVal d "m2m")) = some (some (.vNum 12)) := by
  decide

/-- **C3, amended.**  Holdings and positions upserts have `$set`
field-merge semantics, not replace semantics: when a stored document
matches the `(userId, tradingsymbol)` (resp. `(userId, tradingsymbol,
bucket)`) key and earlier documents do not, a resync overwrites exactly
the fields present in the new normalized document and leaves every
other stored field — stale ones included — unchanged. -/
theorem claim_C3_amended (pre post : List Doc) (m d : Doc) (u : Nat)
    (hnd : ((stampDoc u d).map Prod.fst).Nodup)
    (hpre : ∀ p ∈ pre, matchesFilter (holdKey u d) p = false)
    (hm : matchesFilter (holdKey u d) m = true) :
    upsertHoldings (pre ++ m :: post) u [d] =
      pre ++ applySet (stampDoc u d) m :: post ∧
    (∀ k v, getVal (stampDoc u d) k = some v →
      getVal (applySet (stampDoc u d) m) k = some v) ∧
    (∀ k, getVal (stampDoc u d) k = none →
      getVal (applySet (stampDoc u d) m) k = getVal m k) ∧
    ((∀ p ∈ pre, matchesFilter (posKey u d) p = false) →
      matchesFilter (posKey u d) m = true →
      upsertPositions (pre ++ m :: post) u [d] =
        pre ++ applySet (stampDoc u d) m :: post) := by
  refine ⟨?_, ?_, ?_, ?_⟩
  · simp [upsertHoldings, updateOneSet_split pre post m _ _ hpre hm]
  · intro k v hk
    exact getVal_applySet_of_some _ _ _ _ hnd hk
  · intro k hk
    exact getVal_applySet_of_none _ _ _ hk
  · intro hpre2 hm2
    simp [upsertPositions, updateOneSet_split pre post m _ _ hpre2 hm2]

/-- **C3, witness** for the amended theorem, at the concrete stored
documents of the counterexample: `qty` is overwritten to the new value
while the stale `isin` keeps its old value, and the positions resync
replaces the matched row by the `$set`-merged document. -/
theorem claim_C3_amended_witness :
    getVal (applySet (stampDoc 1 newHolding) oldHolding) "qty"
      = some (.vNum 10) ∧
    getVal (applySet (stampDoc 1 newHolding) oldHolding) "isin"
      = getVal oldHolding "isin" ∧
    upsertPositions [oldPosition] 1 [newPosition] =
      [applySet (stampDoc 1 newPosition) oldPosition] ∧
    getVal (applySet (stampDoc 1 newPosition) oldPosition) "m2m"
      = getVal oldPosition "m2m" := by
  have h := claim_C3_amended [] [] oldHolding newHolding 1
    (by decide) (by simp) (by decide)
  have hp := claim_C3_amended [] [] oldPosition newPosition 1
    (by decide) (by simp) (by decide)
  exact ⟨h.2.1 "qty" (.vNum 10) (by decide), h.2.2.1 "isin" (by decide),
    hp.2.2.2 (by simp) (by decide), hp.2.2.1 "m2m" (by decide)⟩

/-! ### Claim C6 -/

theorem matches_embKey (u : Nat) (kind docId : String) (y : Doc) :
    matchesFilter (embKey u kind docId) y = true ↔
      ((getVal y "userId" = some (.vId u)) ∧
       (getVal y "kind" = some (.vStr kind)) ∧
       (getVal y "docId" = some (.vStr docId))) := by
  simp [matchesFilter, embKey]

theorem embDoc_keys_nodup (u : Nat) (kind docId : String) (vec : List ℚ)
    (chunk : String) (meta : Option (List (String × MetaVal)))
    (phone : Option String) (now : Nat) :
    ((embDoc u kind docId vec chunk meta phone now).map Prod.fst).Nodup := by
  simp [embDoc]

theorem matches_applySet_embDoc (u : Nat) (kind docId : String)
    (vec : List ℚ) (chunk : String)
    (meta : Option (List (String × MetaVal))) (phone : Option String)
    (now : Nat) (x : Doc) :
    matchesFilter (embKey u kind docId)
      (applySet (embDoc u kind docId vec chunk meta phone now) x) = true := by
  rw [matches_embKey]
  refine ⟨?_, ?_, ?_⟩ <;>
    exact getVal_applySet_of_some _ _ _ _
      (embDoc_keys_nodup u kind docId vec chunk meta phone now)
      (by simp [embDoc, getVal_cons])

/-- After one `upsert_embedding` at a key at which the store holds at
most one document, the store holds exactly one document at that key, and
its vector, text and metadata are those just written. -/
theorem upsertEmbedding_step (col : List Doc) (u : Nat) (kind docId : String)
    (vec : List ℚ) (chunk : String)
    (meta : Option (List (String × MetaVal))) (phone : Option String)
    (now : Nat) (h : countKey col (embKey u kind docId) ≤ 1) :
    countKey (upsertEmbedding col u kind docId vec chunk meta phone now)
      (embKey u kind docId) = 1 ∧
    ∃ doc,
      (upsertEmbedding col u kind docId vec chunk meta phone now).find?
        (fun d => matchesFilter (embKey u kind docId) d) = some doc ∧
      getVal doc "vector" = some (.vVec vec) ∧
      getVal doc "chunk" = some (.vStr chunk) ∧
      getVal doc "meta" = some (.vMetaDoc (meta.getD [])) := by
  have hfields :
      ∀ x : Doc,
        getVal (applySet (embDoc u kind docId vec chunk meta phone now) x)
          "vector" = some (.vVec vec) ∧
        getVal (applySet (embDoc u kind docId vec chunk meta phone now) x)
          "chunk" = some (.vStr chunk) ∧
        getVal (applySet (embDoc u kind docId vec chunk meta phone now) x)
          "meta" = some (.vMetaDoc (meta.getD [])) := by
    intro x
    refine ⟨?_, ?_, ?_⟩ <;>
      exact getVal_applySet_of_some _ _ _ _
        (embDoc_keys_nodup u kind docId vec chunk meta phone now)
        (by simp [embDoc, getVal_cons])
  induction col with
  | nil =>
    constructor
    · simp [upsertEmbedding, updateOneSet, countKey, matches_applySet_embDoc]
    · refine ⟨applySet (embDoc u kind docId vec chunk meta phone now)
        (embKey u kind docId), ?_, (hfields _).1, (hfields _).2.1,
        (hfields _).2.2⟩
      simp [upsertEmbedding, updateOneSet, List.find?_cons_of_pos,
            matches_applySet_embDoc]
  | cons c rest ih =>
    by_cases hm : matchesFilter (embKey u kind docId) c
    · have hrest : List.countP
          (fun d => matchesFilter (embKey u kind docId) d) rest = 0 := by
        simp only [countKey, List.countP_cons, hm, if_true] at h
        omega
      have hres : upsertEmbedding (c :: rest) u kind docId vec chunk meta phone now
          = applySet (embDoc u kind docId vec chunk meta phone now) c :: rest := by
        simp [upsertEmbedding, updateOneSet, hm]
      constructor
      · rw [hres]
        simp [countKey, List.countP_cons, matches_applySet_embDoc, hrest]
      · refine ⟨applySet (embDoc u kind docId vec chunk meta phone now) c,
          ?_, (hfields _).1, (hfields _).2.1, (hfields _).2.2⟩
        rw [hres]
        exact List.find?_cons_of_pos _ (matches_applySet_embDoc _ _ _ _ _ _ _ _ _)
    · have h' : countKey rest (embKey u kind docId) ≤ 1 := by
        simp [countKey, List.countP_cons, hm] at h
        simpa [countKey] using h
      have hres : upsertEmbedding (c :: rest) u kind docId vec chunk meta phone now
          = c :: upsertEmbedding rest u kind docId vec chunk meta phone now := by
        simp [upsertEmbedding, updateOneSet, hm]
      rcases ih h' with ⟨hcount, doc, hfind, hv, hc, hmeta⟩
      refine ⟨?_, doc, ?_, hv, hc, hmeta⟩
      · rw [hres]
        simp [countKey, List.countP_cons, hm] at hcount ⊢
        simpa [countKey] using hcount
      · rw [hres, List.find?_cons_of_neg _ (by simp [hm])]
        exact hfind

/-- **C6.**  For every `(user, kind, docId)`, any nonempty sequence of
embedding upserts, run on a store holding at most one document at that
key (in particular on a store where only upserts ever wrote the key),
leaves exactly one stored document at the key, and its vector, text and
metadata are those of the last upsert: last write wins, the prior value
is overwritten. -/
theorem claim_C6_last_write_wins (col : List Doc) (u : Nat)
    (kind docId : String) (as : List EmbedArgs) (a : EmbedArgs)
    (h0 : countKey col (embKey u kind docId) ≤ 1) :
    countKey (upsertEmbeddingSeq col u kind docId (as ++ [a]))
      (embKey u kind docId) = 1 ∧
    ∃ doc,
      (upsertEmbeddingSeq col u kind docId (as ++ [a])).find?
        (fun d => matchesFilter (embKey u kind docId) d) = some doc ∧
      getVal doc "vector" = some (.vVec a.vector) ∧
      getVal doc "chunk" = some (.vStr a.chunk) ∧
      getVal doc "meta" = some (.vMetaDoc (a.metadata.getD [])) := by
  have hseq : ∀ (bs : List EmbedArgs) (c : List Doc),
      countKey c (embKey u kind docId) ≤ 1 →
      countKey (upsertEmbeddingSeq c u kind docId bs) (embKey u kind docId) ≤ 1 := by
    intro bs
    induction bs with
    | nil => intro c hc; exact hc
    | cons b rest ih =>
      intro c hc
      have hstep := upsertEmbedding_step c u kind docId
        b.vector b.chunk b.metadata b.phone b.now hc
      exact ih _ (le_of_eq hstep.1)
  have hmain := upsertEmbedding_step (upsertEmbeddingSeq col u kind docId as)
    u kind docId a.vector a.chunk a.metadata a.phone a.now (hseq as col h0)
  simpa only [upsertEmbeddingSeq, List.foldl_append, List.foldl_cons,
    List.foldl_nil] using hmain

/-- **C6, witness**: two successive upserts at key
`(1, portfolio_summary, d)` on an empty store leave exactly one
document, holding the second upsert's vector, text and metadata. -/
theorem claim_C6_last_write_wins_witness :
    countKey (upsertEmbeddingSeq [] 1 "portfolio_summary" "d"
        ([⟨[1, 2], "old", none, none, 0⟩] ++ [⟨[3, 4], "new",
          some [("holdingsCount", .mn 5)], none, 1⟩]))
      (embKey 1 "portfolio_summary" "d") = 1 ∧
    ∃ doc,
      (upsertEmbeddingSeq [] 1 "portfolio_summary" "d"
        ([⟨[1, 2], "old", none, none, 0⟩] ++ [⟨[3, 4], "new",
          some [("holdingsCount", .mn 5)], none, 1⟩])).find?
        (fun d => matchesFilter (embKey 1 "portfolio_summary" "d") d) = some doc ∧
      getVal doc "vector" = some (.vVec [3, 4]) ∧
      getVal doc "chunk" = some (.vStr "new") ∧
      getVal doc "meta" = some (.vMetaDoc [("holdingsCount", .mn 5)]) :=
  claim_C6_last_write_wins [] 1 "portfolio_summary" "d"
    [⟨[1, 2], "old", none, none, 0⟩]
    ⟨[3, 4], "new", some [("holdingsCount", .mn 5)], none, 1⟩
    (by decide)

/-! ## Retrieval engine (`app/services/retrieval.py`, `retrieve_context`)

Three collaborator calls are oracles that either raise (`.error`) or
return data: the `embed_text` call (line 23, *outside* the try block, so
its failure propagates out of `retrieve_context`), the Atlas
`$vectorSearch` aggregation (inside the try block), and the `$text`
fallback query inside the except block (lines 59-62; the repo creates no
text index, and an exception raised inside an except block propagates).
The final `find({"userId": user_id}).limit(3)` fallback reads the
embeddings store itself. -/

/-- A `$project`-ed primary search hit (`chunk`, `docId`, `meta`,
`score`); the projected fields may be missing from a document, the
`$meta` score is always present. -/
structure SearchHit where
  docId : Option Val
  chunk : Option Val
  meta : Option Val
  score : ℚ
  deriving DecidableEq, Repr

/-- One formatted chunk handed to the LLM (`retrieval.py` lines 69-77). -/
structure Chunk where
  docId : Val
  chunk : Val
  score : ℚ
  metadata : Val
  deriving DecidableEq, Repr

/-- The formatting loop's treatment of a primary hit: `.get` defaults
`"unknown"`, `""`, `{}` (`retrieval.py` lines 70-77). -/
def fmtHit (r : SearchHit) : Chunk :=
  { docId := r.docId.getD (.vStr "unknown"),
    chunk := r.chunk.getD (.vStr ""),
    score := r.score,
    metadata := r.meta.getD (.vMetaDoc []) }

/-- The formatting of a `$text`-fallback document: same `.get` defaults,
with the fake score `0.5` stamped at line 66. -/
def fmtTextHit (r : Doc) : Chunk :=
  { docId := (getVal r "docId").getD (.vStr "unknown"),
    chunk := (getVal r "chunk").getD (.vStr ""),
    score := 1 / 2,
    metadata := (getVal r "meta").getD (.vMetaDoc []) }

/-- The formatting of an `any_data` fallback document (`retrieval.py`
lines 91-97): score `0.3`, empty metadata, default docId `"fallback"`. -/
def fmtAnyData (d : Doc) : Chunk :=
  { docId := (getVal d "docId").getD (.vStr "fallback"),
    chunk := (getVal d "chunk").getD (.vStr ""),
    score := 3 / 10,
    metadata := .vMetaDoc [] }

/-- The tail of the formatting phase (`retrieval.py` lines 79-97): if no
chunks were produced — whether the primary query succeeded with nothing
or the `$text` fallback found nothing — return up to 3 of the user's
stored documents (natural store order) with score `0.3`; otherwise keep
the chunks. -/
def postProcess (chunks : List Chunk) (store : List Doc) (u : Nat) :
    List Chunk :=
  if chunks = [] then
    ((store.filter (fun d => matchesFilter [("userId", .vId u)] d)).take
      3).map fmtAnyData
  else chunks

/-- `retrieve_context` (`retrieval.py` lines 9-101): embed the question
(`embed_text` runs outside the try block — its failure propagates);
then try the primary vector query (truncated to `k`); on exception run
the `$text` search fallback with fake score `0.5` (a failure of that
query propagates out of the except block); finally apply the no-chunks
fallback over the user's stored documents. -/
def retrieveContext (embedQ : Except String Unit)
    (primary : Except String (List SearchHit))
    (textSearch : Except String (List Doc))
    (store : List Doc) (u : Nat) (k : Nat) : Except String (List Chunk) :=
  match embedQ with
  | .error e => .error e
  | .ok _ =>
    match primary with
    | .ok rs => .ok (postProcess ((rs.take k).map fmtHit) store u)
    | .error _ =>
      match textSearch with
      | .error e => .error e
      | .ok ths => .ok (postProcess ((ths.take k).map fmtTextHit) store u)

/-- A stored embeddings document of user 7, available for the fallback. -/
def fallbackStoreDoc : Doc := embDoc 7 "portfolio_summary" "d1" [1] "text1" none none 0

/-- **C4, counterexample.**  The claim states the fallback runs only
when the primary query itself fails, not when it merely returns nothing.
With a successful embedding, a primary query that *succeeds* with an
empty result and a store holding one document for the user,
`retrieve_context` nevertheless returns that document as a fallback
chunk (score `0.3`), so the fallback also runs on a successful empty
primary; and the claimed strictly-decreasing synthetic scores do not
exist (the score is the constant `0.3`). -/
theorem claim_C4_counterexample :
    retrieveContext (.ok ()) (.ok []) (.ok []) [fallbackStoreDoc] 7 5
      = .ok [⟨.vStr "d1", .vStr "text1", 3 / 10, .vMetaDoc []⟩] ∧
    retrieveContext (.ok ()) (.ok []) (.ok []) [fallbackStoreDoc] 7 5
      ≠ .ok [] := by
  refine ⟨rfl, ?_⟩
  intro hcontr
  rw [show retrieveContext (.ok ()) (.ok []) (.ok []) [fallbackStoreDoc] 7 5
      = .ok [⟨.vStr "d1", .vStr "text1", 3 / 10, .vMetaDoc []⟩] from rfl]
    at hcontr
  simp at hcontr

/-- **C4, amended.**  The fallback triggers differ from the claim: the
`$text`-search fallback (constant fake score `0.5`, truncated to `k`)
runs only when the primary query raises, while the any-documents
fallback — up to 3 of the user's stored documents in store order, each
with constant score `0.3` (not `k` of them, not most-recently-written,
not strictly decreasing) — runs whenever no chunks were produced,
including when the primary query *succeeded* with an empty result.  A
user with no stored documents and no produced chunks gets an empty
list.  `retrieve_context` can still raise: the `embed_text` call runs
outside the try block and its failure propagates, and a failing `$text`
query inside the except block propagates as well. -/
theorem claim_C4_amended (embedQ : Except String Unit)
    (primary : Except String (List SearchHit))
    (textSearch : Except String (List Doc))
    (store : List Doc) (u k : Nat) :
    (∀ e, embedQ = .error e →
      retrieveContext embedQ primary textSearch store u k = .error e) ∧
    (∀ rs, primary = .ok rs → rs ≠ [] → 0 < k →
      retrieveContext (.ok ()) primary textSearch store u k
        = .ok ((rs.take k).map fmtHit)) ∧
    (primary = .ok [] →
      retrieveContext (.ok ()) primary textSearch store u k =
        .ok (((store.filter
          (fun d => matchesFilter [("userId", .vId u)] d)).take
            3).map fmtAnyData)) ∧
    (∀ e ths, primary = .error e → textSearch = .ok ths → ths ≠ [] →
      0 < k →
      retrieveContext (.ok ()) primary textSearch store u k
        = .ok ((ths.take k).map fmtTextHit)) ∧
    (∀ e, primary = .error e → textSearch = .ok [] →
      retrieveContext (.ok ()) primary textSearch store u k =
        .ok (((store.filter
          (fun d => matchesFilter [("userId", .vId u)] d)).take
            3).map fmtAnyData)) ∧
    (∀ e e2, primary = .error e → textSearch = .error e2 →
      retrieveContext (.ok ()) primary textSearch store u k
        = .error e2) ∧
    (primary = .ok [] →
      store.filter (fun d => matchesFilter [("userId", .vId u)] d) = [] →
      retrieveContext (.ok ()) primary textSearch store u k = .ok []) := by
  refine ⟨?_, ?_, ?_, ?_, ?_, ?_, ?_⟩
  · intro e he
    subst he
    rfl
  · intro rs hp hrs hk
    subst hp
    have hne : (rs.take k).map fmtHit ≠ [] := by
      intro hcontr
      rw [List.map_eq_nil_iff, List.take_eq_nil_iff] at hcontr
      rcases hcontr with h0 | h0
      · omega
      · exact hrs h0
    simp only [retrieveContext]
    rw [postProcess, if_neg hne]
  · intro hp
    subst hp
    simp [retrieveContext, postProcess]
  · intro e ths hp ht hths hk
    subst hp
    subst ht
    have hne : (ths.take k).map fmtTextHit ≠ [] := by
      intro hcontr
      rw [List.map_eq_nil_iff, List.take_eq_nil_iff] at hcontr
      rcases hcontr with h0 | h0
      · omega
      · exact hths h0
    simp only [retrieveContext]
    rw [postProcess, if_neg hne]
  · intro e hp ht
    subst hp
    subst ht
    simp [retrieveContext, postProcess]
  · intro e e2 hp ht
    subst hp
    subst ht
    rfl
  · intro hp hs
    subst hp
    simp [retrieveContext, postProcess, hs]

/-- **C4, witness** for the amended theorem: a nonempty successful
primary result is returned as-is; a successful empty primary over an
empty store yields the empty list; and an embedding failure
propagates. -/
theorem claim_C4_amended_witness :
    retrieveContext (.ok ())
      (.ok [⟨some (.vStr "a"), some (.vStr "t"), none, 9 / 10⟩])
      (.ok []) [] 7 5
      = .ok [⟨.vStr "a", .vStr "t", 9 / 10, .vMetaDoc []⟩] ∧
    retrieveContext (.ok ()) (.ok []) (.ok []) [] 7 5 = .ok [] ∧
    retrieveContext (.error "EmbeddingServiceDown") (.ok []) (.ok []) [] 7 5
      = .error "EmbeddingServiceDown" := by
  have h1 := claim_C4_amended (.ok ())
    (.ok [⟨some (.vStr "a"), some (.vStr "t"), none, 9 / 10⟩]) (.ok []) [] 7 5
  have h2 := claim_C4_amended (.ok ()) (.ok []) (.ok []) [] 7 5
  have h3 := claim_C4_amended (.error "EmbeddingServiceDown") (.ok [])
    (.ok []) [] 7 5
  refine ⟨?_, h2.2.2.2.2.2.2 rfl rfl, h3.1 "EmbeddingServiceDown" rfl⟩
  have := h1.2.1 [⟨some (.vStr "a"), some (.vStr "t"), none, 9 / 10⟩]
    rfl (by simp) (by norm_num)
  rw [this]
  rfl

/-! ## Conversation context manager (`app/services/conversation.py`)

Messages are the documents `handle_message_with_context` inserts
(`userId`, `role`, `text`, `ts`) plus the `archived`/`archivedAt` fields
that `start_new_session` stamps; `id` stands for the Mongo `_id`.  The
only writers of `archived` are `start_new_session` (`$set: true`) and
the inserters (field absent), which the well-formedness hypotheses of
the theorems record. -/

/-- A document of the `messages` collection. -/
structure Message where
  id : Nat
  userId : Nat
  role : String
  text : String
  ts : Nat
  archived : Option Bool := none
  archivedAt : Option Nat := none
  deriving DecidableEq, Repr

/-- A document of the `users` collection (the fields the conversation
service reads and writes). -/
structure UserDoc where
  id : Nat
  lastMilestoneNotified : Nat := 0
  currentSessionId : Option String := none
  sessionStartedAt : Option Nat := none
  deriving DecidableEq, Repr

/-- The database slice the conversation service touches: messages,
users, and the (orthogonal) embeddings store. -/
structure ConvState where
  messages : List Message
  users : List UserDoc
  embeddings : List Doc
  deriving DecidableEq, Repr

/-- `MAX_RECENT_MESSAGES` (`conversation.py` line 13). -/
def MAX_RECENT_MESSAGES : Nat := 50

/-- `MAX_CONTEXT_TOKENS` (`conversation.py` line 14). -/
def MAX_CONTEXT_TOKENS : Nat := 16000

/-- `MILESTONE_NOTIFICATIONS` (`conversation.py` line 15). -/
def MILESTONE_NOTIFICATIONS : List Nat := [100, 500, 1000, 2000, 5000]

/-- `get_message_count` (`conversation.py` lines 18-20):
`count_documents({"userId": user_id})` — the filter names only the
user. -/
def getMessageCount (msgs : List Message) (u : Nat) : Nat :=
  (msgs.filter (fun m => m.userId = u)).length

/-- `update_one` on the users collection: apply `f` to the first user
document with the given id (no upsert — no match, no change). -/
def updateFirstUser (users : List UserDoc) (u : Nat) (f : UserDoc → UserDoc) :
    List UserDoc :=
  match users with
  | [] => []
  | x :: rest =>
    if x.id = u then f x :: rest else x :: updateFirstUser rest u f

/-- The stored milestone watermark:
`user.get("lastMilestoneNotified", 0)` with default 0 when the user
document is missing (`conversation.py` line 37). -/
def userWatermark (users : List UserDoc) (u : Nat) : Nat :=
  ((users.find? (fun x => x.id = u)).map (·.lastMilestoneNotified)).getD 0

/-- `check_conversation_milestone` (`conversation.py` lines 23-51):
fire only when the total count is *exactly* a listed milestone and
strictly exceeds the stored watermark; on firing, `$set` the watermark
to the count and return the milestone payload. -/
def checkConversationMilestone (st : ConvState) (u : Nat) :
    ConvState × Option Nat :=
  let count := getMessageCount st.messages u
  if count ∈ MILESTONE_NOTIFICATIONS then
    if userWatermark st.users u < count then
      ({ st with
          users := updateFirstUser st.users u
            (fun x => { x with lastMilestoneNotified := count }) },
       some count)
    else (st, none)
  else (st, none)

/-- The `update_many` mutation of `start_new_session` on one message:
messages of the user whose `archived` field is absent
(`{"$exists": False}`) get `archived = true` and an `archivedAt`
stamp (`conversation.py` lines 212-215). -/
def archiveMsg (u : Nat) (now : Nat) (m : Message) : Message :=
  if m.userId = u ∧ m.archived = none then
    { m with archived := some true, archivedAt := some now }
  else m

/-- `start_new_session` (`conversation.py` lines 200-239): archive the
user's un-archived messages, set the new session id and start time, and
reset the milestone watermark to 0.  Returns the new state and the
session id. -/
def startNewSession (st : ConvState) (u : Nat) (now : Nat) :
    ConvState × String :=
  let sessionId := s!"session-{now}"
  ({ st with
      messages := st.messages.map (archiveMsg u now),
      users := updateFirstUser st.users u (fun x =>
        { x with
            currentSessionId := some sessionId,
            sessionStartedAt := some now,
            lastMilestoneNotified := 0 }) },
   sessionId)

/-- The context state returned by `get_conversation_context`. -/
inductive CtxState where
  | empty
  | full
  | extended
  | recentOnly
  | summarized
  deriving DecidableEq, Repr

/-- Insert a message into a list sorted by descending timestamp
(stable). -/
def insertTsDesc (m : Message) : List Message → List Message
  | [] => [m]
  | x :: xs => if m.ts ≤ x.ts then x :: insertTsDesc m xs else m :: x :: xs

/-- `sort("ts", -1)`: deterministic stable sort by descending
timestamp. -/
def sortTsDesc : List Message → List Message
  | [] => []
  | x :: xs => insertTsDesc x (sortTsDesc xs)

/-- `get_conversation_context` (`conversation.py` lines 147-197): the
message queries filter on `userId` only; the recent window is the last
`MAX_RECENT_MESSAGES` by timestamp (chronological order), the token
estimate is 50 per message, and older messages are pulled with
`skip/limit` while they fit the remaining budget. -/
def getConversationContext (msgs : List Message) (u : Nat)
    (maxTokens : Nat) : List Message × CtxState :=
  let totalCount := getMessageCount msgs u
  if totalCount = 0 then ([], .empty)
  else
    let sorted := sortTsDesc (msgs.filter (fun m => m.userId = u))
    let recent := (sorted.take MAX_RECENT_MESSAGES).reverse
    let recentTokens := recent.length * 50
    if totalCount ≤ MAX_RECENT_MESSAGES then (recent, .full)
    else if recentTokens < maxTokens then
      let remainingBudget := maxTokens - recentTokens
      let additional := min (remainingBudget / 50)
        (totalCount - MAX_RECENT_MESSAGES)
      if 0 < additional then
        (((sorted.drop MAX_RECENT_MESSAGES).take additional).reverse ++ recent,
         .extended)
      else (recent, .recentOnly)
    else (recent, .summarized)

/-! ### Claim C5 -/

/-- `n` stored messages of one user (ids and timestamps `0..n-1`). -/
def mkMessages (n : Nat) (u : Nat) : List Message :=
  (List.range n).map (fun i => ⟨i, u, "user", "m", i, none, none⟩)

/-- **C5, counterexample.**  The claim states a milestone `T` fires as
soon as the count *reaches or passes* `T` while `T` exceeds the
watermark.  A user with 102 messages and watermark 0 has passed the
milestone 100, yet `check_conversation_milestone` returns no
notification and leaves the state untouched: the code fires only when
the count is *exactly* a listed milestone (`count in
MILESTONE_NOTIFICATIONS`). -/
theorem claim_C5_counterexample :
    getMessageCount (mkMessages 102 1) 1 = 102 ∧
    (100 ∈ MILESTONE_NOTIFICATIONS ∧ 100 ≤ 102 ∧
      userWatermark [⟨1, 0, none, none⟩] 1 < 100) ∧
    (checkConversationMilestone ⟨mkMessages 102 1, [⟨1, 0, none, none⟩], []⟩ 1).2
      = none ∧
    (checkConversationMilestone ⟨mkMessages 102 1, [⟨1, 0, none, none⟩], []⟩ 1).1
      = ⟨mkMessages 102 1, [⟨1, 0, none, none⟩], []⟩ := by
  decide

theorem userWatermark_update_set (users : List UserDoc) (u c : Nat)
    (hu : (users.find? (fun x => x.id = u)).isSome) :
    userWatermark (updateFirstUser users u
      (fun x => { x with lastMilestoneNotified := c })) u = c := by
  induction users with
  | nil => simp [List.find?] at hu
  | cons x rest ih =>
    by_cases hx : x.id = u
    · simp [updateFirstUser, hx, userWatermark, List.find?_cons_of_pos]
    · rw [List.find?_cons_of_neg _ (by simp [hx])] at hu
      simp only [updateFirstUser, if_neg hx]
      rw [userWatermark, List.find?_cons_of_neg _ (by simp [hx])]
      rw [userWatermark] at ih
      exact ih hu

/-- **C5, amended.**  For a user with a stored user document,
`check_conversation_milestone` fires exactly when the total message
count is *exactly* one of the listed milestones and strictly exceeds the
stored watermark; on firing it reports that count, advances the
watermark to it, leaves the messages untouched, and an immediate
re-check fires nothing (so it can never fire twice for the same
threshold); when it does not fire, the state is unchanged. -/
theorem claim_C5_amended (st : ConvState) (u : Nat)
    (hu : (st.users.find? (fun x => x.id = u)).isSome) :
    ((checkConversationMilestone st u).2 ≠ none ↔
      (getMessageCount st.messages u ∈ MILESTONE_NOTIFICATIONS ∧
       userWatermark st.users u < getMessageCount st.messages u)) ∧
    ((checkConversationMilestone st u).2 = none →
      (checkConversationMilestone st u).1 = st) ∧
    ((checkConversationMilestone st u).2 ≠ none →
      (checkConversationMilestone st u).2
        = some (getMessageCount st.messages u) ∧
      userWatermark (checkConversationMilestone st u).1.users u
        = getMessageCount st.messages u ∧
      (checkConversationMilestone st u).1.messages = st.messages ∧
      (checkConversationMilestone (checkConversationMilestone st u).1 u).2
        = none) := by
  by_cases hmem : getMessageCount st.messages u ∈ MILESTONE_NOTIFICATIONS
  · by_cases hlt : userWatermark st.users u < getMessageCount st.messages u
    · refine ⟨by simp [checkConversationMilestone, hmem, hlt], ?_, ?_⟩
      · simp [checkConversationMilestone, hmem, hlt]
      · intro _
        have hw := userWatermark_update_set st.users u
          (getMessageCount st.messages u) hu
        refine ⟨by simp [checkConversationMilestone, hmem, hlt],
          by simp [checkConversationMilestone, hmem, hlt, hw],
          by simp [checkConversationMilestone, hmem, hlt], ?_⟩
        simp only [checkConversationMilestone, hmem, hlt, if_true, if_pos]
        simp [hmem, hw]
    · exact ⟨by simp [checkConversationMilestone, hmem, hlt],
        by simp [checkConversationMilestone, hmem, hlt],
        by simp [checkConversationMilestone, hmem, hlt]⟩
  · exact ⟨by simp [checkConversationMilestone, hmem],
      by simp [checkConversationMilestone, hmem],
      by simp [checkConversationMilestone, hmem]⟩

/-- **C5, witness** for the amended theorem: a user with exactly 100
messages and watermark 0 fires milestone 100, the watermark advances to
100, and an immediate re-check fires nothing. -/
theorem claim_C5_amended_witness :
    (checkConversationMilestone
      ⟨mkMessages 100 1, [⟨1, 0, none, none⟩], []⟩ 1).2 = some 100 ∧
    userWatermark (checkConversationMilestone
      ⟨mkMessages 100 1, [⟨1, 0, none, none⟩], []⟩ 1).1.users 1 = 100 ∧
    (checkConversationMilestone (checkConversationMilestone
      ⟨mkMessages 100 1, [⟨1, 0, none, none⟩], []⟩ 1).1 1).2 = none := by
  have h := claim_C5_amended ⟨mkMessages 100 1, [⟨1, 0, none, none⟩], []⟩ 1
    (by decide)
  have hfire := h.2.2 (by decide)
  have hcount : getMessageCount (mkMessages 100 1) 1 = 100 := by decide
  exact ⟨by rw [hfire.1]; exact congrArg some hcount,
    by rw [hfire.2.1]; exact hcount, hfire.2.2.2⟩

/-! ### Claim C7 -/

theorem userWatermark_session_reset (users : List UserDoc) (u : Nat)
    (sid : String) (now : Nat) :
    userWatermark (updateFirstUser users u (fun x =>
      { x with
          currentSessionId := some sid,
          sessionStartedAt := some now,
          lastMilestoneNotified := 0 })) u = 0 := by
  induction users with
  | nil => rfl
  | cons x rest ih =>
    by_cases hx : x.id = u
    · simp [updateFirstUser, hx, userWatermark, List.find?_cons_of_pos]
    · simp only [updateFirstUser, if_neg hx]
      rw [userWatermark, List.find?_cons_of_neg _ (by simp [hx])]
      rw [userWatermark] at ih
      exact ih

theorem getMessageCount_map (msgs : List Message) (f : Message → Message)
    (hf : ∀ m, (f m).userId = m.userId) (u : Nat) :
    getMessageCount (msgs.map f) u = getMessageCount msgs u := by
  induction msgs with
  | nil => rfl
  | cons m rest ih =>
    simp only [List.map_cons, getMessageCount, List.filter_cons] at ih ⊢
    rw [hf m]
    by_cases hm : m.userId = u <;> simp [hm] <;>
      simpa [getMessageCount] using ih

/-- **C7.**  On a state whose messages were written only by the code's
own writers (`archived` is never `false`), `start_new_session` archives,
with the archive timestamp, every message of the user that was not
already archived; afterwards every message of the user is archived; it
deletes no message row and leaves other users' rows as they were; it
resets the milestone watermark to 0; it leaves the vector-indexed
summaries untouched; and the total historical message count of the user
is unchanged. -/
theorem claim_C7_session_reset (st : ConvState) (u now : Nat)
    (hwf : ∀ m ∈ st.messages, m.archived ≠ some false) :
    (∀ m ∈ st.messages, m.userId = u → m.archived = none →
      { m with archived := some true, archivedAt := some now }
        ∈ (startNewSession st u now).1.messages) ∧
    (∀ m ∈ (startNewSession st u now).1.messages, m.userId = u →
      m.archived = some true) ∧
    (startNewSession st u now).1.messages.length = st.messages.length ∧
    (∀ m ∈ st.messages, m.userId ≠ u →
      m ∈ (startNewSession st u now).1.messages) ∧
    userWatermark (startNewSession st u now).1.users u = 0 ∧
    (startNewSession st u now).1.embeddings = st.embeddings ∧
    getMessageCount (startNewSession st u now).1.messages u
      = getMessageCount st.messages u := by
  have hmsgs : (startNewSession st u now).1.messages
      = st.messages.map (archiveMsg u now) := rfl
  have hfu : ∀ m, (archiveMsg u now m).userId = m.userId := by
    intro m
    unfold archiveMsg
    split <;> rfl
  refine ⟨?_, ?_, ?_, ?_, ?_, rfl, ?_⟩
  · intro m hm hmu hma
    rw [hmsgs]
    have : archiveMsg u now m
        = { m with archived := some true, archivedAt := some now } := by
      unfold archiveMsg
      rw [if_pos ⟨hmu, hma⟩]
    exact this ▸ List.mem_map_of_mem _ hm
  · intro m' hm' hmu'
    rw [hmsgs] at hm'
    rcases List.mem_map.mp hm' with ⟨m, hm, rfl⟩
    unfold archiveMsg
    unfold archiveMsg at hmu'
    split at hmu'
    · rename_i hcond
      rw [if_pos hcond]
    · rename_i hcond
      rw [if_neg hcond]
      have hmu : m.userId = u := hmu'
      cases ha : m.archived with
      | none => exact absurd ⟨hmu, ha⟩ hcond
      | some b =>
        cases b with
        | false => exact absurd ha (hwf m hm)
        | true => rfl
  · rw [hmsgs, List.length_map]
  · intro m hm hmu
    rw [hmsgs]
    have : archiveMsg u now m = m := by
      unfold archiveMsg
      rw [if_neg (fun hc => hmu hc.1)]
    exact this ▸ List.mem_map_of_mem _ hm
  · exact userWatermark_session_reset st.users u _ now
  · rw [hmsgs]
    exact getMessageCount_map st.messages _ hfu u

/-- An un-archived message of user 1. -/
def wMsgA : Message := ⟨0, 1, "user", "hi", 5, none, none⟩

/-- An already-archived message of user 1. -/
def wMsgB : Message := ⟨1, 1, "assistant", "yo", 6, some true, some 2⟩

/-- A message of another user. -/
def wMsgC : Message := ⟨2, 2, "user", "other", 7, none, none⟩

/-- A concrete conversation state for the session-reset witness. -/
def wState : ConvState :=
  ⟨[wMsgA, wMsgB, wMsgC], [⟨1, 100, none, none⟩],
   [[("kind", .vStr "portfolio_summary")]]⟩

/-- **C7, witness**: on the concrete state, the un-archived message of
user 1 is archived with the timestamp, the watermark drops from 100 to
0, the embeddings store is untouched and the user's total count is
unchanged. -/
theorem claim_C7_session_reset_witness :
    ({ wMsgA with archived := some true, archivedAt := some 9 }
      ∈ (startNewSession wState 1 9).1.messages) ∧
    userWatermark (startNewSession wState 1 9).1.users 1 = 0 ∧
    (startNewSession wState 1 9).1.embeddings = wState.embeddings ∧
    getMessageCount (startNewSession wState 1 9).1.messages 1
      = getMessageCount wState.messages 1 := by
  have h := claim_C7_session_reset wState 1 9 (by decide)
  exact ⟨h.1 wMsgA (by simp [wState]) rfl rfl,
    h.2.2.2.2.1, h.2.2.2.2.2.1, h.2.2.2.2.2.2⟩

/-! ### Claims C9 and C10 -/

theorem filter_userId_map (msgs : List Message) (f : Message → Message)
    (hf : ∀ m, (f m).userId = m.userId) (u : Nat) :
    (msgs.map f).filter (fun m => m.userId = u)
      = (msgs.filter (fun m => m.userId = u)).map f := by
  induction msgs with
  | nil => rfl
  | cons m rest ih =>
    simp only [List.map_cons, List.filter_cons, hf m]
    by_cases hm : m.userId = u <;> simp [hm, ih]

theorem insertTsDesc_map (f : Message → Message)
    (hf : ∀ m, (f m).ts = m.ts) (m : Message) (l : List Message) :
    insertTsDesc (f m) (l.map f) = (insertTsDesc m l).map f := by
  induction l with
  | nil => rfl
  | cons x xs ih =>
    simp only [List.map_cons, insertTsDesc, hf]
    by_cases h : m.ts ≤ x.ts <;> simp [h, ih]

theorem sortTsDesc_map (f : Message → Message)
    (hf : ∀ m, (f m).ts = m.ts) (l : List Message) :
    sortTsDesc (l.map f) = (sortTsDesc l).map f := by
  induction l with
  | nil => rfl
  | cons x xs ih =>
    simp only [List.map_cons, sortTsDesc, ih]
    exact insertTsDesc_map f hf x (sortTsDesc xs)

theorem insertTsDesc_length (m : Message) (l : List Message) :
    (insertTsDesc m l).length = l.length + 1 := by
  induction l with
  | nil => rfl
  | cons x xs ih =>
    simp only [insertTsDesc]
    by_cases h : m.ts ≤ x.ts <;> simp [h, ih]

theorem sortTsDesc_length (l : List Message) :
    (sortTsDesc l).length = l.length := by
  induction l with
  | nil => rfl
  | cons x xs ih => simp [sortTsDesc, insertTsDesc_length, ih]

/-- `get_conversation_context` commutes with any per-message rewrite
that keeps `userId` and `ts`: the queries filter on `userId` and sort on
`ts` only, so such a rewrite maps through the returned window and leaves
the state unchanged. -/
theorem getConversationContext_map (msgs : List Message)
    (f : Message → Message) (hfu : ∀ m, (f m).userId = m.userId)
    (hft : ∀ m, (f m).ts = m.ts) (u maxTokens : Nat) :
    getConversationContext (msgs.map f) u maxTokens
      = ((getConversationContext msgs u maxTokens).1.map f,
         (getConversationContext msgs u maxTokens).2) := by
  have hcount := getMessageCount_map msgs f hfu u
  simp only [getConversationContext]
  rw [hcount, filter_userId_map msgs f hfu u, sortTsDesc_map f hft]
  by_cases h0 : getMessageCount msgs u = 0
  · simp [h0]
  · rw [if_neg h0, if_neg h0]
    rw [← List.map_take, ← List.map_reverse, List.length_map]
    by_cases h50 : getMessageCount msgs u ≤ MAX_RECENT_MESSAGES
    · rw [if_pos h50, if_pos h50]
    · rw [if_neg h50, if_neg h50]
      by_cases htok :
          ((sortTsDesc (msgs.filter (fun m => m.userId = u))).take
            MAX_RECENT_MESSAGES).reverse.length * 50 < maxTokens
      · rw [if_pos htok, if_pos htok]
        by_cases hadd : 0 < min
            ((maxTokens -
              ((sortTsDesc (msgs.filter (fun m => m.userId = u))).take
                MAX_RECENT_MESSAGES).reverse.length * 50) / 50)
            (getMessageCount msgs u - MAX_RECENT_MESSAGES)
        · rw [if_pos hadd, if_pos hadd]
          rw [← List.map_drop, ← List.map_take, ← List.map_reverse,
            ← List.map_append]
        · rw [if_neg hadd, if_neg hadd]
      · rw [if_neg htok, if_neg htok]

/-- The identity of a message row: everything the inserters write
(`_id`, `userId`, `role`, `text`, `ts`), i.e. everything except the
archive flags. -/
def msgCore (m : Message) : Nat × Nat × String × String × Nat :=
  (m.id, m.userId, m.role, m.text, m.ts)

/-- **C9.**  `get_conversation_context` and the count used by the
milestone check filter on `userId` only and never consult the
`archived` flag: immediately after `start_new_session` archives every
message, the milestone count, the context state, and the returned
context window (row for row, up to the freshly stamped archive flags)
are the same as before the reset. -/
theorem claim_C9_archived_not_consulted (st : ConvState)
    (u now mt : Nat) :
    getMessageCount (startNewSession st u now).1.messages u
      = getMessageCount st.messages u ∧
    (getConversationContext (startNewSession st u now).1.messages u mt).2
      = (getConversationContext st.messages u mt).2 ∧
    (getConversationContext (startNewSession st u now).1.messages u mt).1.map
        msgCore
      = (getConversationContext st.messages u mt).1.map msgCore := by
  have hmsgs : (startNewSession st u now).1.messages
      = st.messages.map (archiveMsg u now) := rfl
  have hfu : ∀ m, (archiveMsg u now m).userId = m.userId := by
    intro m
    unfold archiveMsg
    split <;> rfl
  have hft : ∀ m, (archiveMsg u now m).ts = m.ts := by
    intro m
    unfold archiveMsg
    split <;> rfl
  have hcore : ∀ m, msgCore (archiveMsg u now m) = msgCore m := by
    intro m
    unfold archiveMsg
    split <;> rfl
  have hctx := getConversationContext_map st.messages (archiveMsg u now)
    hfu hft u mt
  refine ⟨?_, ?_, ?_⟩
  · rw [hmsgs]
    exact getMessageCount_map st.messages _ hfu u
  · rw [hmsgs, hctx]
  · rw [hmsgs, hctx]
    simp only [List.map_map]
    exact List.map_congr_left (fun m _ => hcore m)

/-- **C10.**  With the default constants (`MAX_RECENT_MESSAGES = 50`,
token budget 16000, 50 tokens per message), `get_conversation_context`
returns state `extended` for every user with strictly more than 50
messages, and the `recent_only` and `summarized` branches are
unreachable: the recent window costs at most 2500 estimated tokens, so
the budget check always passes with at least 270 messages of headroom. -/
theorem claim_C10_extended_only (msgs : List Message) (u : Nat) :
    (50 < getMessageCount msgs u →
      (getConversationContext msgs u MAX_CONTEXT_TOKENS).2 = .extended) ∧
    (getConversationContext msgs u MAX_CONTEXT_TOKENS).2 ≠ .recentOnly ∧
    (getConversationContext msgs u MAX_CONTEXT_TOKENS).2 ≠ .summarized := by
  have hsortlen : (sortTsDesc (msgs.filter (fun m => m.userId = u))).length
      = getMessageCount msgs u := by
    rw [sortTsDesc_length]
    rfl
  simp only [getConversationContext]
  by_cases h0 : getMessageCount msgs u = 0
  · rw [if_pos h0]
    exact ⟨fun h => absurd h0 (by omega), by simp, by simp⟩
  · rw [if_neg h0]
    by_cases h50 : getMessageCount msgs u ≤ MAX_RECENT_MESSAGES
    · rw [if_pos h50]
      refine ⟨fun h => ?_, by simp, by simp⟩
      rw [MAX_RECENT_MESSAGES] at h50
      omega
    · rw [if_neg h50]
      have hlen : ((sortTsDesc (msgs.filter (fun m => m.userId = u))).take
          MAX_RECENT_MESSAGES).reverse.length = 50 := by
        rw [List.length_reverse, List.length_take, hsortlen,
          MAX_RECENT_MESSAGES]
        rw [MAX_RECENT_MESSAGES] at h50
        omega
      have htok : ((sortTsDesc (msgs.filter (fun m => m.userId = u))).take
          MAX_RECENT_MESSAGES).reverse.length * 50 < MAX_CONTEXT_TOKENS := by
        rw [hlen, MAX_CONTEXT_TOKENS]
        omega
      rw [if_pos htok]
      have hadd : 0 < min
          ((MAX_CONTEXT_TOKENS -
            ((sortTsDesc (msgs.filter (fun m => m.userId = u))).take
              MAX_RECENT_MESSAGES).reverse.length * 50) / 50)
          (getMessageCount msgs u - MAX_RECENT_MESSAGES) := by
        rw [hlen, MAX_CONTEXT_TOKENS, MAX_RECENT_MESSAGES]
        rw [MAX_RECENT_MESSAGES] at h50
        omega
      rw [if_pos hadd]
      exact ⟨fun _ => rfl, by simp, by simp⟩

/-- **C10, witness**: a user with 51 messages gets state `extended`
under the defaults. -/
theorem claim_C10_extended_only_witness :
    50 < getMessageCount (mkMessages 51 1) 1 ∧
    (getConversationContext (mkMessages 51 1) 1 MAX_CONTEXT_TOKENS).2
      = .extended :=
  ⟨by decide, (claim_C10_extended_only (mkMessages 51 1) 1).1 (by decide)⟩

/-! ## Portfolio summary totals (`sync.py`, `build_embeddings_for_user`)

The aggregation loop at `sync.py` lines 185-231: per stored holding it
reads `qty`, `avgPrice`, `lastPrice` and accumulates
`total_investment += qty * avg_price` and
`total_value += qty * last_price`; then `total_pnl = total_value -
total_investment` and `total_pnl_pct = total_pnl / total_investment *
100` when the investment is positive, else 0.  Numbers are exact
rationals in the embedding. -/

/-- A stored holdings row as the summary builder reads it. -/
structure HoldingRow where
  tradingsymbol : String
  qty : ℚ
  avgPrice : ℚ
  lastPrice : ℚ
  deriving DecidableEq, Repr

/-- The accumulation loop over the holdings (`sync.py` lines 185-198):
running pair `(total_investment, total_value)` starting from `(0, 0)`. -/
def portfolioLoop (hs : List HoldingRow) : ℚ × ℚ :=
  hs.foldl (fun acc h =>
    (acc.1 + h.qty * h.avgPrice, acc.2 + h.qty * h.lastPrice)) (0, 0)

/-- `total_investment` after the loop. -/
def totalInvestment (hs : List HoldingRow) : ℚ := (portfolioLoop hs).1

/-- `total_value` after the loop. -/
def totalValue (hs : List HoldingRow) : ℚ := (portfolioLoop hs).2

/-- `total_pnl = total_value - total_investment` (`sync.py` line 230). -/
def totalPnL (hs : List HoldingRow) : ℚ := totalValue hs - totalInvestment hs

/-- `total_pnl_pct` (`sync.py` line 231). -/
def totalPnLPct (hs : List HoldingRow) : ℚ :=
  if 0 < totalInvestment hs then totalPnL hs / totalInvestment hs * 100 else 0

/-- The spec's example holdings: A(10 @ avg 100, last 110),
B(5 @ avg 200, last 190), C(20 @ avg 50, last 55). -/
def exampleHoldings : List HoldingRow :=
  [⟨"A", 10, 100, 110⟩, ⟨"B", 5, 200, 190⟩, ⟨"C", 20, 50, 55⟩]

theorem portfolioLoop_run (hs : List HoldingRow) (a b : ℚ) :
    hs.foldl (fun acc h =>
      (acc.1 + h.qty * h.avgPrice, acc.2 + h.qty * h.lastPrice)) (a, b)
      = (a + (hs.map (fun h => h.qty * h.avgPrice)).sum,
         b + (hs.map (fun h => h.qty * h.lastPrice)).sum) := by
  induction hs generalizing a b with
  | nil => simp
  | cons h rest ih =>
    simp only [List.foldl_cons, List.map_cons, List.sum_cons, ih]
    rw [Prod.mk.injEq]
    constructor <;> ring

/-- **C8, counterexample.**  The claim's example asserts totals of
investment 2000, value 2150 and P&L +150 (+7.5%) for holdings
A(10 @ 100, last 110), B(5 @ 200, last 190), C(20 @ 50, last 55); the
code's loop yields investment 3000 (= 1000 + 1000 + 1000), value 3150,
P&L +150, which is +5%, not +7.5%. -/
theorem claim_C8_counterexample :
    totalInvestment exampleHoldings = 3000 ∧
    totalValue exampleHoldings = 3150 ∧
    totalPnL exampleHoldings = 150 ∧
    totalPnLPct exampleHoldings = 5 ∧
    totalInvestment exampleHoldings ≠ 2000 ∧
    totalValue exampleHoldings ≠ 2150 ∧
    totalPnLPct exampleHoldings ≠ 15 / 2 := by
  norm_num [totalInvestment, totalValue, totalPnL, totalPnLPct,
    portfolioLoop, exampleHoldings]

/-- **C8, amended.**  The aggregate formulas hold as stated — total
investment `= Σ qty·avgPrice`, total value `= Σ qty·lastPrice`, P&L
`= value − investment` — but on the example holdings they give
investment 3000, value 3150, P&L +150 (+5%), not 2000 / 2150 / +7.5%. -/
theorem claim_C8_amended (hs : List HoldingRow) :
    totalInvestment hs = (hs.map (fun h => h.qty * h.avgPrice)).sum ∧
    totalValue hs = (hs.map (fun h => h.qty * h.lastPrice)).sum ∧
    totalPnL hs = totalValue hs - totalInvestment hs ∧
    totalInvestment exampleHoldings = 3000 ∧
    totalValue exampleHoldings = 3150 ∧
    totalPnL exampleHoldings = 150 ∧
    totalPnLPct exampleHoldings = 5 := by
  have hrun := portfolioLoop_run hs 0 0
  refine ⟨?_, ?_, rfl, ?_, ?_, ?_, ?_⟩
  · rw [totalInvestment, portfolioLoop, hrun]
    simp
  · rw [totalValue, portfolioLoop, hrun]
    simp
  all_goals
    norm_num [totalInvestment, totalValue, totalPnL, totalPnLPct,
      portfolioLoop, exampleHoldings]

end TradeBuddy
